import Mathlib

/-!
Shallow embedding of the Folder Zipper core (src/assets/js/script.js).

Files carry a hierarchical path (`webkitRelativePath` split on `/`); in the
browser a `File`'s `name` is always the last segment of that path, so the
embedding derives `name` from the path.  Strings are lists of characters;
JavaScript `toLowerCase` on the ASCII range is `Char.toLower` per character.
The cooperative async scheduling of the zip pipeline is modelled by a step
counter `t` that advances at every suspension point (the per-file `delay`
await and the `generateAsync` await); a stop request scheduled at suspension
point `stopAt` makes the cancellation flag read true from time `stopAt` on.
-/

/-- Statuses from `FOLDER_STATUS` (script.js lines 45-49). -/
inductive FolderStatus where
  | pending
  | zipping
  | complete
deriving DecidableEq, Repr

/-- A file entry: the hierarchical path segments obtained by splitting the
file's `webkitRelativePath` on `/`.  The split of a non-empty relative path
always yields a non-empty segment list. -/
structure FileEntry where
  pathParts : List String
deriving DecidableEq, Repr

/-- The browser's `File.name`: the basename, i.e. the last path segment. -/
def FileEntry.name (f : FileEntry) : String := f.pathParts.getLastD ""

/-- `SUPPORTED_FILE_EXTENSIONS` (script.js lines 14-20). -/
def SUPPORTED_FILE_EXTENSIONS : List String :=
  [".html", ".htm", ".css", ".js", ".json", ".xml", ".txt", ".md",
   ".jpg", ".jpeg", ".png", ".gif", ".svg", ".bmp", ".webp", ".ico",
   ".zip", ".rar", ".7z", ".tar", ".gz", ".pdf", ".doc", ".docx",
   ".xls", ".xlsx", ".ppt", ".pptx", ".mp3", ".mp4", ".avi", ".mov",
   ".wmv", ".csv", ".log", ".ini", ".conf", ".config"]

/-- JavaScript `String.prototype.toLowerCase` on the ASCII range:
each character is lowered individually (`Char.toLower` maps `A`-`Z` to
`a`-`z` and leaves everything else unchanged). -/
def jsToLower (s : String) : String := ⟨s.data.map Char.toLower⟩

/-- JavaScript `String.prototype.endsWith`: suffix test on the characters. -/
def jsEndsWith (s p : String) : Bool := p.data.isSuffixOf s.data

/-- A word character of the regex class `\w`: `[A-Za-z0-9_]`. -/
def isWordChar (c : Char) : Bool := c.isAlpha || c.isDigit || c == '_'

/-- The regex test `/\.\w{1,5}$/.test(s)` (script.js line 98): the string
ends in a dot followed by 1 to 5 word characters.  The regex matches iff for
some j with 1 ≤ j ≤ 5 the last j characters are word characters and the
character just before them is a dot. -/
def hasGenericExtension (s : String) : Bool :=
  (List.range 5).any (fun k =>
    let j := k + 1
    decide (j + 1 ≤ s.data.length) &&
    (s.data.getD (s.data.length - j - 1) ' ' == '.') &&
    (s.data.drop (s.data.length - j)).all isWordChar)

/-- `isFile` (script.js lines 93-101): a name is a file if its lowercase
form ends with a supported extension or matches the generic-extension
pattern. -/
def isFile (name : String) : Bool :=
  let lowerName := jsToLower name
  let hasExtension := SUPPORTED_FILE_EXTENSIONS.any (fun ext => jsEndsWith lowerName ext)
  let hasGeneric := hasGenericExtension lowerName
  hasExtension || hasGeneric

/-- JavaScript truthiness of `commonRoot` in `extractFolderName`:
`null` and the empty string are falsy. -/
def jsTruthy : Option String → Bool
  | none => false
  | some s => !(s == "")

/-- `extractCommonRoot` (script.js lines 253-256): the set of distinct first
path segments; if there is exactly one, it is the common root, else null. -/
def extractCommonRoot (pathParts : List (List String)) : Option String :=
  let uniqueRoots := (pathParts.map (fun parts => parts.headD "")).dedup
  if uniqueRoots.length = 1 then some ((pathParts.headD []).headD "") else none

/-- `extractFolderName` (script.js lines 265-274) with the third argument as
documented (`@param {Array<Array<string>>} allPathParts - All path parts for
context`): `parts.length > 1` then reads the segment count of each entry. -/
def extractFolderName (pathParts : List String) (commonRoot : Option String)
    (allPathParts : List (List String)) : String :=
  let hasNestedFolders := allPathParts.any (fun parts => parts.length > 1)
  let isNested := pathParts.length > 1
  if jsTruthy commonRoot && hasNestedFolders && isNested then
    pathParts.getD 1 ""
  else
    pathParts.headD ""

/-- What `extractFolderName` actually computes at its call site:
`processUploadedFiles` (script.js line 289) passes the entry's own
`pathParts` (an array of strings) as `allPathParts`, so
`parts.length > 1` reads the CHARACTER count of each segment of this
entry's path, not the segment count of the batch's entries. -/
def extractFolderNameAsCalled (pathParts : List String) (commonRoot : Option String) : String :=
  let hasNestedFolders := pathParts.any (fun parts => parts.length > 1)
  let isNested := pathParts.length > 1
  if jsTruthy commonRoot && hasNestedFolders && isNested then
    pathParts.getD 1 ""
  else
    pathParts.headD ""

/-- Insertion into the JavaScript `Map` used as `folderMap`
(script.js lines 291-295): if the key exists, push onto its list, else
append a new key in insertion order. -/
def insertIntoGroups (groups : List (String × List FileEntry)) (name : String)
    (file : FileEntry) : List (String × List FileEntry) :=
  match groups with
  | [] => [(name, [file])]
  | (n, fs) :: rest =>
    if n = name then (n, fs ++ [file]) :: rest
    else (n, fs) :: insertIntoGroups rest name file

/-- The grouping pass of `processUploadedFiles` (script.js lines 280-296):
compute the common root of all paths, then group each file under
`extractFolderName(pathParts, commonRoot, pathParts)` - note that the
file's own `pathParts` is passed as the third argument. -/
def processUploadedFiles (files : List FileEntry) : List (String × List FileEntry) :=
  let pathPartsAll := files.map (fun file => file.pathParts)
  let commonRoot := extractCommonRoot pathPartsAll
  files.foldl
    (fun folderMap file =>
      let pathParts := file.pathParts
      let folderName := extractFolderNameAsCalled pathParts commonRoot
      insertIntoGroups folderMap folderName file)
    []

/-- A folder record (`createFolderObject`, script.js lines 322-330).  The
archive blob is modelled as the list of (relative path, file) entries the
zip engine inserted.  `id` is the unique identifier; `Date.now()+random` is
modelled as a `Nat` chosen by the caller. -/
structure Folder where
  id : Nat
  name : String
  files : List FileEntry
  status : FolderStatus
  progress : Nat
  zipBlob : Option (List (String × FileEntry))
  isFile : Bool
deriving DecidableEq, Repr

/-- `createFolderObject` (script.js lines 322-330). -/
def createFolderObject (newId : Nat) (name : String) (files : List FileEntry) : Folder :=
  { id := newId
    name := name
    files := files
    status := FolderStatus.pending
    progress := 0
    zipBlob := none
    isFile := isFile name }

/-- `addFolder` (script.js lines 337-345): a duplicate name is a no-op,
otherwise the new record is appended to `state.folders`. -/
def addFolder (newId : Nat) (name : String) (files : List FileEntry)
    (folders : List Folder) : List Folder :=
  if folders.any (fun folder => folder.name == name) then folders
  else folders ++ [createFolderObject newId name files]

/-- `removeFolder` (script.js lines 552-574): refuse while zipping, else
filter the record out of `state.folders` by id.  The DOM-element existence
guard is presentation-level and always satisfied for registered records
(`addFolder` renders every record it registers). -/
def removeFolder (folder : Folder) (folders : List Folder) : List Folder :=
  if folder.status = FolderStatus.zipping then folders
  else folders.filter (fun f => f.id != folder.id)

/-- `removeUnwantedFiles` (script.js lines 579-612): if no record has
`isFile` set, return with no change; otherwise `state.folders` is reassigned
to the records with `isFile` false (line 611), with no status check. -/
def removeUnwantedFiles (folders : List Folder) : List Folder :=
  let unwantedFiles := folders.filter (fun folder => folder.isFile)
  if unwantedFiles.isEmpty then folders
  else folders.filter (fun f => !f.isFile)

/-- JavaScript `a || b` on strings: the empty string is falsy. -/
def jsOrString (a b : String) : String := if a = "" then b else a

/-- JavaScript `Array.prototype.join` with separator `/`. -/
def joinSlash : List String → String
  | [] => ""
  | [s] => s
  | s :: rest => s ++ "/" ++ joinSlash rest

/-- `calculateRelativePath` (script.js lines 624-638): find the first path
segment equal to the record name; take everything after it, joined by `/`,
falling back to `file.name` if that join is empty; with no match, take
everything after the first segment (or `file.name` for a single-segment
path). -/
def calculateRelativePath (file : FileEntry) (folderName : String) : String :=
  let pathParts := file.pathParts
  match pathParts.findIdx? (fun part => part == folderName) with
  | some folderIndex =>
    let relativeParts := pathParts.drop (folderIndex + 1)
    jsOrString (joinSlash relativeParts) file.name
  | none =>
    if pathParts.length > 1 then
      jsOrString (joinSlash (pathParts.drop 1)) file.name
    else
      file.name

/-- The relative-path rule as the specification states it (spec section 4.4):
every segment after the first match of the record name joined by `/`, or the
file's own name if that join is empty; with no match, the segments after the
first joined by `/`, or the bare file name if the path has only one
segment. -/
def relativePathSpec (file : FileEntry) (recordName : String) : String :=
  match file.pathParts.findIdx? (fun part => part == recordName) with
  | some i =>
    let joined := joinSlash (file.pathParts.drop (i + 1))
    if joined = "" then file.name else joined
  | none =>
    if file.pathParts.length > 1 then joinSlash (file.pathParts.drop 1)
    else file.name

/-- `resetFolderState` (script.js lines 644-650): back to pending with zero
progress (UI refresh calls elided). -/
def resetFolderState (folder : Folder) : Folder :=
  { folder with status := FolderStatus.pending, progress := 0 }

/-- The cancellation flag `state.shouldStopZipping` as read at step `t` of a
bulk run that started at time 0 with the flag cleared: a stop request
scheduled at suspension point `stopAt` makes the flag true from then on. -/
def shouldStop (stopAt t : Nat) : Bool := stopAt ≤ t

/-- `Math.round(((i + 1) / totalFiles) * 100)` (script.js line 682) in exact
rational arithmetic: floor of `done * 100 / total + 1 / 2`. -/
def jsRoundPct (done total : Nat) : Nat := (done * 200 + total) / (2 * total)

/-- The per-file loop of `zipFolder` (script.js lines 672-687) followed by
the finalization (lines 690-702).  `t` is the suspension-point counter; the
`await delay(...)` after each file and the `await zip.generateAsync(...)`
each advance it by one.  The flag is checked before each file and once more
before `generateAsync`; there is no check after `generateAsync`. -/
def zipFolderLoop (stopAt totalFiles : Nat) :
    List FileEntry → Nat → List (String × FileEntry) → Folder → Nat → Folder × Nat
  | [], _, zip, folder, t =>
    if shouldStop stopAt t then (resetFolderState folder, t)
    else
      ({ folder with
          zipBlob := some zip
          status := FolderStatus.complete
          progress := 100 }, t + 1)
  | file :: rest, i, zip, folder, t =>
    if shouldStop stopAt t then (resetFolderState folder, t)
    else
      let relativePath := calculateRelativePath file folder.name
      let zip := zip ++ [(relativePath, file)]
      let folder := { folder with progress := jsRoundPct (i + 1) totalFiles }
      zipFolderLoop stopAt totalFiles rest (i + 1) zip folder (t + 1)

/-- `zipFolder` (script.js lines 656-703): check the flag at entry, mark the
record zipping, then run the per-file loop and finalization. -/
def zipFolder (stopAt : Nat) (folder : Folder) (t : Nat) : Folder × Nat :=
  if shouldStop stopAt t then (resetFolderState folder, t)
  else
    let folder := { folder with status := FolderStatus.zipping }
    zipFolderLoop stopAt folder.files.length folder.files 0 [] folder t

/-- The mutable application state (script.js lines 79-82), UI elements
elided. -/
structure AppState where
  folders : List Folder
  shouldStopZipping : Bool
deriving DecidableEq, Repr

/-- The record loop of `zipAllFolders` (script.js lines 749-755): before
each record the flag is checked (break on stop); a pending, valid record is
zipped, every other record is skipped without any suspension. -/
def zipAllLoop (stopAt : Nat) : List Folder → Nat → List Folder × Nat
  | [], t => ([], t)
  | folder :: rest, t =>
    if shouldStop stopAt t then (folder :: rest, t)
    else if folder.status = FolderStatus.pending && !folder.isFile then
      let r := zipFolder stopAt folder t
      let rr := zipAllLoop stopAt rest r.2
      (r.1 :: rr.1, rr.2)
    else
      let rr := zipAllLoop stopAt rest t
      (folder :: rr.1, rr.2)

/-- `zipAllFolders` (script.js lines 735-762): abort untouched when any
record has `isFile` set (`validateAndHighlightFiles`, lines 210-242, returns
true exactly then); otherwise clear the flag and run the record loop from
time 0.  The final flag value records whether the scheduled stop request
arrived by the end of the run. -/
def zipAllFolders (stopAt : Nat) (s : AppState) : AppState :=
  if s.folders.any (fun folder => folder.isFile) then s
  else
    let r := zipAllLoop stopAt s.folders 0
    { folders := r.1, shouldStopZipping := shouldStop stopAt r.2 }

/-! ## Helper lemmas -/

theorem toLower_ne_dot {c : Char} (h : c ≠ '.') : Char.toLower c ≠ '.' := by
  show (if c.toNat ≥ 65 ∧ c.toNat ≤ 90 then Char.ofNat (c.toNat + 32) else c) ≠ '.'
  split
  · next hn =>
    intro hcontra
    obtain ⟨h1, h2⟩ := hn
    obtain ⟨m, hm⟩ : ∃ m, c.toNat = m := ⟨_, rfl⟩
    rw [hm] at h1 h2 hcontra
    interval_cases m <;> exact absurd hcontra (by decide)
  · exact h

theorem dot_not_mem_toLower {s : String} (h : '.' ∉ s.data) : '.' ∉ (jsToLower s).data := by
  intro hmem
  have hmem' : '.' ∈ s.data.map Char.toLower := hmem
  rw [List.mem_map] at hmem'
  obtain ⟨c, hc, hlow⟩ := hmem'
  by_cases hcd : c = '.'
  · exact h (hcd ▸ hc)
  · exact toLower_ne_dot hcd hlow

theorem mem_dot_of_hasGeneric {s : String} (h : hasGenericExtension s = true) :
    '.' ∈ s.data := by
  unfold hasGenericExtension at h
  rw [List.any_eq_true] at h
  obtain ⟨k, _, hcond⟩ := h
  simp only [Bool.and_eq_true, decide_eq_true_eq, beq_iff_eq] at hcond
  obtain ⟨⟨hlen, hdot⟩, _⟩ := hcond
  have hidx : s.data.length - (k + 1) - 1 < s.data.length := by omega
  rw [List.getD_eq_getElem _ _ hidx] at hdot
  rw [← hdot]
  exact List.getElem_mem hidx

theorem joinSlash_eq_empty : ∀ l : List String, joinSlash l = "" → l = [] ∨ l = [""]
  | [], _ => Or.inl rfl
  | [s], h => by
    have hs : s = "" := by simpa [joinSlash] using h
    exact Or.inr (by rw [hs])
  | s :: s2 :: rest, h => by
    exfalso
    have hlen := congrArg String.length h
    rw [show joinSlash (s :: s2 :: rest) = s ++ "/" ++ joinSlash (s2 :: rest) from rfl] at hlen
    rw [String.length_append, String.length_append] at hlen
    have h1 : ("/" : String).length = 1 := rfl
    have h0 : ("" : String).length = 0 := rfl
    omega

theorem zipFolderLoop_result (stopAt totalFiles : Nat) :
    ∀ (files : List FileEntry) (i : Nat) (zip : List (String × FileEntry))
      (folder : Folder) (t : Nat),
      ((zipFolderLoop stopAt totalFiles files i zip folder t).1.status = FolderStatus.pending
        ∧ (zipFolderLoop stopAt totalFiles files i zip folder t).1.progress = 0)
      ∨ ((zipFolderLoop stopAt totalFiles files i zip folder t).1.status = FolderStatus.complete
        ∧ (zipFolderLoop stopAt totalFiles files i zip folder t).1.progress = 100) := by
  intro files
  induction files with
  | nil =>
    intro i zip folder t
    simp only [zipFolderLoop]
    split
    · exact Or.inl ⟨rfl, rfl⟩
    · exact Or.inr ⟨rfl, rfl⟩
  | cons file rest ih =>
    intro i zip folder t
    simp only [zipFolderLoop]
    split
    · exact Or.inl ⟨rfl, rfl⟩
    · exact ih (i + 1) _ _ (t + 1)

theorem zipFolder_result (stopAt : Nat) (folder : Folder) (t : Nat) :
    ((zipFolder stopAt folder t).1.status = FolderStatus.pending
      ∧ (zipFolder stopAt folder t).1.progress = 0)
    ∨ ((zipFolder stopAt folder t).1.status = FolderStatus.complete
      ∧ (zipFolder stopAt folder t).1.progress = 100) := by
  unfold zipFolder
  split
  · exact Or.inl ⟨rfl, rfl⟩
  · exact zipFolderLoop_result _ _ _ 0 [] _ t

theorem zipAllLoop_inv (stopAt : Nat) :
    ∀ (folders : List Folder) (t : Nat),
      (∀ f ∈ folders, f.status ≠ FolderStatus.zipping
        ∧ (f.status = FolderStatus.pending → f.progress = 0)) →
      ∀ f ∈ (zipAllLoop stopAt folders t).1,
        f.status ≠ FolderStatus.zipping
          ∧ (f.status = FolderStatus.pending → f.progress = 0) := by
  intro folders
  induction folders with
  | nil => intro t h; simp [zipAllLoop]
  | cons folder rest ih =>
    intro t h
    simp only [zipAllLoop]
    split
    · exact h
    · split
      · intro f hf
        rcases List.mem_cons.mp hf with hf | hf
        · subst hf
          rcases zipFolder_result stopAt folder t with ⟨h1, h2⟩ | ⟨h1, h2⟩
          · exact ⟨by rw [h1]; decide, fun _ => h2⟩
          · exact ⟨by rw [h1]; decide, fun hp => absurd (h1.symm.trans hp) (by decide)⟩
        · exact ih _ (fun g hg => h g (List.mem_cons_of_mem _ hg)) f hf
      · intro f hf
        rcases List.mem_cons.mp hf with hf | hf
        · subst hf
          exact h f (List.mem_cons_self _ _)
        · exact ih t (fun g hg => h g (List.mem_cons_of_mem _ hg)) f hf

theorem zipFolderLoop_reset (stopAt totalFiles : Nat) :
    ∀ (files : List FileEntry) (i : Nat) (zip : List (String × FileEntry))
      (folder : Folder) (t : Nat), stopAt ≤ t + files.length →
      (zipFolderLoop stopAt totalFiles files i zip folder t).1 = resetFolderState folder := by
  intro files
  induction files with
  | nil =>
    intro i zip folder t h
    have ht : stopAt ≤ t := by simpa using h
    simp only [zipFolderLoop]
    rw [if_pos (by simpa [shouldStop] using ht)]
  | cons file rest ih =>
    intro i zip folder t h
    have hc : stopAt ≤ (t + 1) + rest.length := by
      simp only [List.length_cons] at h
      omega
    simp only [zipFolderLoop]
    split
    · rfl
    · exact (ih (i + 1) _ _ (t + 1) hc).trans rfl

theorem zipFolderLoop_complete (stopAt totalFiles : Nat) :
    ∀ (files : List FileEntry) (i : Nat) (zip : List (String × FileEntry))
      (folder : Folder) (t : Nat), t + files.length < stopAt →
      (zipFolderLoop stopAt totalFiles files i zip folder t).1.status = FolderStatus.complete
        ∧ (zipFolderLoop stopAt totalFiles files i zip folder t).1.progress = 100 := by
  intro files
  induction files with
  | nil =>
    intro i zip folder t h
    have ht : t < stopAt := by simpa using h
    simp only [zipFolderLoop]
    rw [if_neg (by simp [shouldStop]; omega)]
    exact ⟨rfl, rfl⟩
  | cons file rest ih =>
    intro i zip folder t h
    have ht : t < stopAt := by
      simp only [List.length_cons] at h
      omega
    have hc : (t + 1) + rest.length < stopAt := by
      simp only [List.length_cons] at h
      omega
    simp only [zipFolderLoop]
    rw [if_neg (by simp [shouldStop]; omega)]
    exact ih (i + 1) _ _ (t + 1) hc

theorem zipFolder_reset (stopAt : Nat) (folder : Folder) (t : Nat)
    (h : stopAt ≤ t + folder.files.length) :
    (zipFolder stopAt folder t).1 = resetFolderState folder := by
  unfold zipFolder
  split
  · rfl
  · exact (zipFolderLoop_reset stopAt _ _ 0 [] _ t (by simpa using h)).trans rfl

theorem zipFolder_complete (stopAt : Nat) (folder : Folder) (t : Nat)
    (h : t + folder.files.length < stopAt) :
    (zipFolder stopAt folder t).1.status = FolderStatus.complete
      ∧ (zipFolder stopAt folder t).1.progress = 100 := by
  have ht : t < stopAt := by omega
  unfold zipFolder
  rw [if_neg (by simp [shouldStop]; omega)]
  exact zipFolderLoop_complete stopAt _ _ 0 [] _ t (by simpa using h)

theorem zipAllLoop_frozen (stopAt : Nat) :
    ∀ (folders : List Folder) (t : Nat), stopAt ≤ t →
      zipAllLoop stopAt folders t = (folders, t) := by
  intro folders t h
  cases folders with
  | nil => rfl
  | cons folder rest =>
    simp only [zipAllLoop]
    rw [if_pos (by simpa [shouldStop] using h)]

/-! ## Claim theorems -/

/-- C1 (counterexample): for the batch with paths `["Proj","a.txt"]` and
`["Proj","sub","b.txt"]`, the grouping pass produces NO group named
`"Proj"`: the group names are `"a.txt"` and `"sub"` (the second path
segment is taken for the first entry too, because it has two segments). -/
theorem claim1_counterexample :
    ((processUploadedFiles [⟨["Proj", "a.txt"]⟩, ⟨["Proj", "sub", "b.txt"]⟩]).map Prod.fst
        = ["a.txt", "sub"])
    ∧ ((processUploadedFiles [⟨["Proj", "a.txt"]⟩,
          ⟨["Proj", "sub", "b.txt"]⟩]).map Prod.fst).contains "Proj" = false := by
  decide

/-- C1 (amended): for the batch with paths `["Proj","a.txt"]` and
`["Proj","sub","b.txt"]`, the grouping pass produces exactly two groups:
one named `"a.txt"` containing the entry `a.txt`, and one named `"sub"`
containing the entry `b.txt`. -/
theorem claim1_amended :
    processUploadedFiles [⟨["Proj", "a.txt"]⟩, ⟨["Proj", "sub", "b.txt"]⟩]
      = [("a.txt", [⟨["Proj", "a.txt"]⟩]), ("sub", [⟨["Proj", "sub", "b.txt"]⟩])] := by
  decide

/-- C2 (code bug): with the single-entry batch of path `["a","b"]` a common
root `"a"` exists and the entry has two segments, so the claimed rule (and
`extractFolderName` as documented, third conjunct) gives the second segment
`"b"`; but the grouping pass computes `"a"` because `processUploadedFiles`
passes the entry's own `pathParts` as `allPathParts`, making the nested
check read character counts (all 1 here). -/
theorem claim2_code_behavior :
    processUploadedFiles [⟨["a", "b"]⟩] = [("a", [⟨["a", "b"]⟩])]
    ∧ extractFolderName ["a", "b"] (some "a") [["a", "b"]] = "b"
    ∧ extractFolderNameAsCalled ["a", "b"] (some "a") = "a" := by
  decide

/-- C3 (confirmed): `calculateRelativePath` returns, for a matched record
name, the segments after the first match joined by `/` (or the file's name
if that join is empty), and with no match the segments after the first
joined by `/` (or the bare file name for a one-segment path); in particular
`["Root","Sub","deep.txt"]` in record `"Sub"` maps to `"deep.txt"` and
`["A","B","c.txt"]` with an unmatched record name maps to `"B/c.txt"`. -/
theorem claim3_calculateRelativePath_spec :
    calculateRelativePath ⟨["Root", "Sub", "deep.txt"]⟩ "Sub" = "deep.txt"
    ∧ calculateRelativePath ⟨["A", "B", "c.txt"]⟩ "Z" = "B/c.txt"
    ∧ ∀ (file : FileEntry) (recordName : String),
        calculateRelativePath file recordName = relativePathSpec file recordName := by
  refine ⟨by decide, by decide, ?_⟩
  intro file recordName
  obtain ⟨l⟩ := file
  simp only [calculateRelativePath, relativePathSpec]
  cases hidx : l.findIdx? (fun part => part == recordName) with
  | some i => simp only [jsOrString]
  | none =>
    by_cases hl : l.length > 1
    · simp only [if_pos hl, jsOrString]
      by_cases hj : joinSlash (l.drop 1) = ""
      · rw [if_pos hj]
        rcases joinSlash_eq_empty _ hj with h0 | h1
        · exfalso
          rw [List.drop_eq_nil_iff] at h0
          omega
        · cases l with
          | nil => simp at h1
          | cons a t =>
            simp only [List.drop_one, List.tail_cons] at h1
            subst h1
            rw [hj]
            rfl
      · rw [if_neg hj]
    · simp only [if_neg hl]


/-- C4 (counterexample): one valid pending record with no files; the stop
request arrives at suspension point 1, i.e. while the record's
`generateAsync` finalization is in flight (the run's only await).  The flag
ends true, so the stop was raised during the run, yet the in-flight record
ends `complete` with progress 100, not `pending` with progress 0: there is
no cancellation check after finalization. -/
theorem claim4_counterexample :
    (zipAllFolders 1 ⟨[createFolderObject 0 "F" []], false⟩).shouldStopZipping = true
    ∧ (zipAllFolders 1 ⟨[createFolderObject 0 "F" []], false⟩).folders
      = [{ createFolderObject 0 "F" [] with
            status := FolderStatus.complete
            progress := 100
            zipBlob := some [] }] := by
  decide

/-- C4 (amended): after a bulk zip run during which the stop request was
raised, no record's status is left as `zipping`, and the cancellation
checks really divert to the reset path.  (1) A record whose zip starts at
time `t` undergoes its cancellation checks - at entry, before each file,
and before finalization - at times `t` through `t + files.length`; if the
stop arrives at or before the last of these checks the record ends exactly
in the reset state (`pending`, progress 0, all other fields untouched),
and it ends `complete` with progress 100 precisely when the stop arrives
strictly after that last check, i.e. only when its finalization had
already passed it.  (2) A record not yet started when the flag is set is
left untouched by the bulk loop, so a pending record stays `pending` with
progress 0.  (3) At run level, whatever the stop schedule, no record ends
`zipping` and every record ending `pending` has progress 0 (hypotheses:
no record is mid-zip at the start of the run and pending records start
with progress 0). -/
theorem claim4_stop_resets_to_pending (stopAt : Nat) :
    (∀ (folder : Folder) (t : Nat),
      (stopAt ≤ t + folder.files.length →
        (zipFolder stopAt folder t).1 = resetFolderState folder)
      ∧ (t + folder.files.length < stopAt →
        (zipFolder stopAt folder t).1.status = FolderStatus.complete
          ∧ (zipFolder stopAt folder t).1.progress = 100))
    ∧ (∀ (folders : List Folder) (t : Nat),
        stopAt ≤ t → zipAllLoop stopAt folders t = (folders, t))
    ∧ (∀ s : AppState,
        (∀ f ∈ s.folders, f.status ≠ FolderStatus.zipping) →
        (∀ f ∈ s.folders, f.status = FolderStatus.pending → f.progress = 0) →
        ∀ f ∈ (zipAllFolders stopAt s).folders,
          f.status ≠ FolderStatus.zipping
            ∧ (f.status = FolderStatus.pending → f.progress = 0)) := by
  refine ⟨fun folder t =>
      ⟨zipFolder_reset stopAt folder t, zipFolder_complete stopAt folder t⟩,
    zipAllLoop_frozen stopAt, ?_⟩
  intro s hz hp
  unfold zipAllFolders
  split
  · exact fun f hf => ⟨hz f hf, hp f hf⟩
  · exact zipAllLoop_inv stopAt s.folders 0 (fun g hg => ⟨hz g hg, hp g hg⟩)

/-- C4 witness: with the stop scheduled at suspension point 1, (a) a
two-file record started at time 0 is cancelled mid-loop (its first check
passes, the check before the second file sees the flag) and ends exactly
reset to `pending` with progress 0; (b) an empty record started at time 0
passes its final check before the stop and completes with progress 100;
(c) a record not yet started when the flag is set is left untouched by the
bulk loop; (d) the run-level invariant at a concrete one-record state. -/
theorem claim4_witness :
    (zipFolder 1 (createFolderObject 0 "G" [⟨["G", "x.txt"]⟩, ⟨["G", "y.txt"]⟩]) 0).1
        = resetFolderState (createFolderObject 0 "G" [⟨["G", "x.txt"]⟩, ⟨["G", "y.txt"]⟩])
    ∧ (zipFolder 1 (createFolderObject 0 "F" []) 0).1.status = FolderStatus.complete
    ∧ (zipFolder 1 (createFolderObject 0 "F" []) 0).1.progress = 100
    ∧ zipAllLoop 1 [createFolderObject 0 "G" [⟨["G", "x.txt"]⟩, ⟨["G", "y.txt"]⟩]] 1
        = ([createFolderObject 0 "G" [⟨["G", "x.txt"]⟩, ⟨["G", "y.txt"]⟩]], 1)
    ∧ (({ createFolderObject 0 "F" [] with
          status := FolderStatus.complete
          progress := 100
          zipBlob := some [] } : Folder).status ≠ FolderStatus.zipping
        ∧ (({ createFolderObject 0 "F" [] with
              status := FolderStatus.complete
              progress := 100
              zipBlob := some [] } : Folder).status = FolderStatus.pending →
           ({ createFolderObject 0 "F" [] with
              status := FolderStatus.complete
              progress := 100
              zipBlob := some [] } : Folder).progress = 0)) := by
  have h := claim4_stop_resets_to_pending 1
  exact ⟨(h.1 _ 0).1 (by decide),
    ((h.1 _ 0).2 (by decide)).1,
    ((h.1 _ 0).2 (by decide)).2,
    h.2.1 _ 1 (by decide),
    h.2.2 ⟨[createFolderObject 0 "F" []], false⟩ (by decide) (by decide) _ (by decide)⟩

/-- C5 (counterexample): a registered record with `isFile` true whose
status is `zipping` is removed by `removeUnwantedFiles` all the same - the
function never checks the status - contradicting the claim that such a
record is individually refused and remains. -/
theorem claim5_counterexample :
    removeUnwantedFiles
        [⟨0, "notes.txt", [], FolderStatus.zipping, 50, none, true⟩] = []
    ∧ (⟨0, "notes.txt", [], FolderStatus.zipping, 50, none, true⟩ : Folder).status
        = FolderStatus.zipping
    ∧ (⟨0, "notes.txt", [], FolderStatus.zipping, 50, none, true⟩ : Folder).isFile
        = true := by
  decide

/-- C5 (amended): `removeUnwantedFiles` removes every registered record
with `isFile` true in one batch, regardless of status - even a record whose
status is `zipping` is removed; exactly the records with `isFile` false
remain, in order. -/
theorem claim5_removes_all_invalid :
    ∀ folders : List Folder,
      removeUnwantedFiles folders = folders.filter (fun f => !f.isFile) := by
  intro folders
  simp only [removeUnwantedFiles]
  split
  · next hemp =>
    have hnil := List.isEmpty_iff.mp hemp
    have hall : ∀ f ∈ folders, ¬f.isFile = true := List.filter_eq_nil_iff.mp hnil
    exact (List.filter_eq_self.mpr (fun a ha => by simpa using hall a ha)).symm
  · rfl

/-- C6 (confirmed): if at least one registered record has `isFile` true,
`zipAllFolders` returns the state entirely unchanged - no status or
progress change, no archive produced, and the cancellation flag untouched -
whatever the stop schedule. -/
theorem claim6_zipAll_aborts_on_invalid (stopAt : Nat) (s : AppState)
    (h : ∃ f ∈ s.folders, f.isFile = true) :
    zipAllFolders stopAt s = s := by
  unfold zipAllFolders
  rw [if_pos (List.any_eq_true.mpr h)]

/-- C6 witness: a one-record state whose record is classified a file is
returned unchanged. -/
theorem claim6_witness :
    zipAllFolders 0 ⟨[createFolderObject 7 "a.txt" []], false⟩
      = ⟨[createFolderObject 7 "a.txt" []], false⟩ :=
  claim6_zipAll_aborts_on_invalid 0 _ (by decide)

/-- C7 (confirmed): adding a record under a name already present leaves the
registry exactly as it was (same size, records untouched, new files
discarded); otherwise the new record is appended with status pending,
progress 0, no archive, and `isFile` computed by the classifier. -/
theorem claim7_addFolder_duplicate_noop (newId : Nat) (name : String)
    (files : List FileEntry) (folders : List Folder) :
    ((∃ f ∈ folders, f.name = name) → addFolder newId name files folders = folders)
    ∧ (¬(∃ f ∈ folders, f.name = name) →
        addFolder newId name files folders
          = folders ++ [⟨newId, name, files, FolderStatus.pending, 0, none, isFile name⟩]) := by
  constructor
  · intro h
    unfold addFolder
    rw [if_pos]
    rw [List.any_eq_true]
    obtain ⟨f, hf, hn⟩ := h
    exact ⟨f, hf, by simp [hn]⟩
  · intro h
    unfold addFolder
    rw [if_neg]
    · rfl
    · intro hc
      obtain ⟨f, hf, hn⟩ := List.any_eq_true.mp hc
      exact h ⟨f, hf, by simpa using hn⟩

/-- C7 witness: duplicate name "Docs" is a no-op; fresh name "Pics" is
appended with the initial fields. -/
theorem claim7_witness :
    addFolder 1 "Docs" [] [createFolderObject 0 "Docs" []]
      = [createFolderObject 0 "Docs" []]
    ∧ addFolder 1 "Pics" [] [createFolderObject 0 "Docs" []]
      = [createFolderObject 0 "Docs" [],
         ⟨1, "Pics", [], FolderStatus.pending, 0, none, isFile "Pics"⟩] :=
  ⟨(claim7_addFolder_duplicate_noop 1 "Docs" [] [createFolderObject 0 "Docs" []]).1
      (by decide),
   (claim7_addFolder_duplicate_noop 1 "Pics" [] [createFolderObject 0 "Docs" []]).2
      (by decide)⟩

/-- C8 (confirmed): removing a record whose status is `zipping` refuses:
nothing changes and the registry still contains the record; for a record
not in `zipping` status, no record with its id remains in the registry. -/
theorem claim8_removeFolder_guard (folder : Folder) (folders : List Folder) :
    (folder.status = FolderStatus.zipping →
      removeFolder folder folders = folders
        ∧ (folder ∈ folders → folder ∈ removeFolder folder folders))
    ∧ (folder.status ≠ FolderStatus.zipping →
      ∀ f ∈ removeFolder folder folders, f.id ≠ folder.id) := by
  constructor
  · intro h
    have he : removeFolder folder folders = folders := by
      unfold removeFolder
      rw [if_pos h]
    exact ⟨he, fun hm => by rw [he]; exact hm⟩
  · intro h
    unfold removeFolder
    rw [if_neg h]
    intro f hf
    have hfil := (List.mem_filter.mp hf).2
    simpa using hfil

/-- C8 witness: a zipping record survives its own removal; a pending record
is gone after removal. -/
theorem claim8_witness :
    removeFolder (⟨0, "Z", [], FolderStatus.zipping, 10, none, false⟩ : Folder)
      [⟨0, "Z", [], FolderStatus.zipping, 10, none, false⟩]
      = [⟨0, "Z", [], FolderStatus.zipping, 10, none, false⟩]
    ∧ createFolderObject 3 "P" [] ∉
        removeFolder (createFolderObject 3 "P" []) [createFolderObject 3 "P" []] :=
  ⟨((claim8_removeFolder_guard _ _).1 rfl).1,
   fun hm => (claim8_removeFolder_guard (createFolderObject 3 "P" [])
      [createFolderObject 3 "P" []]).2 (by decide) _ hm rfl⟩

/-- C9 (confirmed): every name in the extension table classifies as a file;
every name whose lowercase form matches the dot-plus-1-to-5-word-characters
pattern classifies as a file; every name containing no dot classifies as a
folder. -/
theorem claim9_isFile_classifier :
    (∀ ext ∈ SUPPORTED_FILE_EXTENSIONS, isFile ext = true)
    ∧ (∀ name : String, hasGenericExtension (jsToLower name) = true → isFile name = true)
    ∧ (∀ name : String, '.' ∉ name.data → isFile name = false) := by
  refine ⟨by decide, ?_, ?_⟩
  · intro name h
    unfold isFile
    simp only [h, Bool.or_true]
  · intro name h
    have hlow := dot_not_mem_toLower h
    have hdots : ∀ ext ∈ SUPPORTED_FILE_EXTENSIONS, '.' ∈ ext.data := by decide
    unfold isFile
    rw [Bool.or_eq_false_iff]
    constructor
    · rw [List.any_eq_false]
      intro ext hext
      simp only [Bool.not_eq_true]
      rw [Bool.eq_false_iff]
      intro hsuf
      unfold jsEndsWith at hsuf
      have hsuf' := List.isSuffixOf_iff_suffix.mp hsuf
      exact hlow (hsuf'.subset (hdots ext hext))
    · rw [Bool.eq_false_iff]
      intro hg
      exact hlow (mem_dot_of_hasGeneric hg)

/-- C9 witness: the classifier at a table entry, at a name matching the
generic pattern case-insensitively, and at a dotless name. -/
theorem claim9_witness :
    isFile ".html" = true ∧ isFile "x.Q" = true ∧ isFile "folder" = false :=
  ⟨claim9_isFile_classifier.1 ".html" (by decide),
   claim9_isFile_classifier.2.1 "x.Q" (by decide),
   claim9_isFile_classifier.2.2 "folder" (by decide)⟩

/-- C10 (confirmed): on a record with no files and the cancellation flag
clear, `zipFolder` terminates after the single finalization await and takes
the record straight to `complete` with progress 100 and an (empty) archive
blob set; the per-file loop body never runs, so the per-file progress
division by the zero file count is never evaluated. -/
theorem claim10_zipFolder_empty (stopAt t : Nat) (folder : Folder)
    (hfiles : folder.files = []) (hstatus : folder.status = FolderStatus.pending)
    (hflag : shouldStop stopAt t = false) :
    zipFolder stopAt folder t
      = ({ folder with
            status := FolderStatus.complete
            progress := 100
            zipBlob := some [] }, t + 1) := by
  obtain ⟨fid, fname, ffiles, fstatus, fprog, fblob, fisf⟩ := folder
  simp only at hfiles hstatus
  subst hfiles hstatus
  simp [zipFolder, zipFolderLoop, hflag]

/-- C10 witness: a fresh empty record zipped at time 0 with the stop
scheduled later. -/
theorem claim10_witness :
    zipFolder 2 (createFolderObject 0 "Empty" []) 0
      = ({ createFolderObject 0 "Empty" [] with
            status := FolderStatus.complete
            progress := 100
            zipBlob := some [] }, 0 + 1) :=
  claim10_zipFolder_empty 2 0 (createFolderObject 0 "Empty" []) rfl rfl (by decide)
